import Mathlib

/-!
# Verification of the `gridka-2018` regression notebook preprocessing code

Shallow embedding of the locally-authored logic of `4_regression.ipynb`:

* `split_and_preprocess` — splits a 2-D numeric array into training/test
  partitions (contiguous prefix/suffix), separates the last column as labels,
  and normalizes the feature columns by the training partition's per-column
  mean and standard deviation, with the categorical column 0 exempted by
  overwriting its statistics with mean 0 and scale 1.
* `TrainingHistory` — a Keras callback accumulating per-epoch `loss` and
  `val_loss` values.

A numpy 2-D float array of shape `(n, c)` is modelled as a `List (List ℝ)` of
row lists together with the column count `c`; theorems that need
well-shapedness take the hypothesis that every row has length `c`.  Machine
floats are modelled by exact reals.  Python's `int(...)` truncation and
negative-index slicing are modelled faithfully by `pyInt`/`pyIdx`.
-/

namespace Gridka

/-- Python `int(x)` applied to a float: truncation toward zero. -/
noncomputable def pyInt (x : ℝ) : ℤ :=
  if 0 ≤ x then ⌊x⌋ else ⌈x⌉

/-- Resolve a Python slice/index bound `k` against a sequence of length
`len`: nonnegative indices count from the front, negative ones from the
back (`len - |k|`, clamped at 0 by truncated subtraction, as Python slices
clamp). -/
def pyIdx (len : ℕ) (k : ℤ) : ℕ :=
  if 0 ≤ k then k.toNat else len - (-k).toNat

/-- Python slice `l[:k]` (clamping semantics of slices). -/
def pySliceTo (l : List α) (k : ℤ) : List α :=
  l.take (pyIdx l.length k)

/-- Python slice `l[k:]` (clamping semantics of slices). -/
def pySliceFrom (l : List α) (k : ℤ) : List α :=
  l.drop (pyIdx l.length k)

/-- Python indexing `l[k]` for a float sequence; out-of-range access is
totalized with 0 (the claims only use it in range). -/
def pyGet (l : List ℝ) (k : ℤ) : ℝ :=
  l.getD (pyIdx l.length k) 0

/-- Column `j` of a row-major matrix (entries beyond a row's length
totalized with 0; rectangularity hypotheses keep this in range). -/
def colOf (m : List (List ℝ)) (j : ℕ) : List ℝ :=
  m.map (fun r => r.getD j 0)

/-- numpy `mean` of a 1-D array: sum over length. -/
noncomputable def listMean (l : List ℝ) : ℝ :=
  l.sum / l.length

/-- numpy population variance of a 1-D array: mean of squared deviations. -/
noncomputable def listVar (l : List ℝ) : ℝ :=
  ((l.map (fun x => (x - listMean l) ^ 2)).sum) / l.length

/-- numpy `std` of a 1-D array: square root of the population variance. -/
noncomputable def listStd (l : List ℝ) : ℝ :=
  Real.sqrt (listVar l)

/-- numpy `m.mean(axis=0)` for an array of `c` columns: the vector of
column means. -/
noncomputable def npMean (c : ℕ) (m : List (List ℝ)) : List ℝ :=
  (List.range c).map (fun j => listMean (colOf m j))

/-- numpy `m.std(axis=0)` for an array of `c` columns: the vector of
column standard deviations. -/
noncomputable def npStd (c : ℕ) (m : List (List ℝ)) : List ℝ :=
  (List.range c).map (fun j => listStd (colOf m j))

/-- numpy broadcast `(row - mean) / sigma` for one row: elementwise affine
transform by index. -/
noncomputable def normalizeRow (mean sigma row : List ℝ) : List ℝ :=
  (List.range row.length).map (fun j => (row.getD j 0 - mean.getD j 0) / sigma.getD j 0)

/-- `split_point = int(data.shape[0] * train_fraction)` from the source. -/
noncomputable def splitPoint (data : List (List ℝ)) (train_fraction : ℝ) : ℤ :=
  pyInt ((data.length : ℝ) * train_fraction)

/-- The source's `label_index = -1`. -/
def label_index : ℤ := -1

/-- `train_labels = data[:split_point, label_index]` from the source. -/
noncomputable def trainLabels (data : List (List ℝ)) (f : ℝ) : List ℝ :=
  (pySliceTo data (splitPoint data f)).map (fun row => pyGet row label_index)

/-- `test_labels = data[split_point:, label_index]` from the source. -/
noncomputable def testLabels (data : List (List ℝ)) (f : ℝ) : List ℝ :=
  (pySliceFrom data (splitPoint data f)).map (fun row => pyGet row label_index)

/-- `train = data[:split_point, :label_index]` from the source: the first
`split_point` rows, each without its last entry. -/
noncomputable def trainFeat (data : List (List ℝ)) (f : ℝ) : List (List ℝ) :=
  (pySliceTo data (splitPoint data f)).map (fun row => pySliceTo row label_index)

/-- `test = data[split_point:, :label_index]` from the source. -/
noncomputable def testFeat (data : List (List ℝ)) (f : ℝ) : List (List ℝ) :=
  (pySliceFrom data (splitPoint data f)).map (fun row => pySliceTo row label_index)

/-- `mean = train.mean(axis=0)` followed by `mean[0] = 0.0` from the source.
`c` is the column count of `data` (part of the numpy array's shape), so the
feature matrices have `c - 1` columns. -/
noncomputable def meanVec (c : ℕ) (data : List (List ℝ)) (f : ℝ) : List ℝ :=
  (npMean (c - 1) (trainFeat data f)).set 0 0

/-- `sigma = train.std(axis=0)` followed by `sigma[0] = 1.0` from the source. -/
noncomputable def sigmaVec (c : ℕ) (data : List (List ℝ)) (f : ℝ) : List ℝ :=
  (npStd (c - 1) (trainFeat data f)).set 0 1

/-- The source's `split_and_preprocess(data, train_fraction)`, returning
`(train - mean) / sigma, train_labels, (test - mean) / sigma, test_labels`.
`c` models `data.shape[1]`. -/
noncomputable def split_and_preprocess (c : ℕ) (data : List (List ℝ))
    (train_fraction : ℝ) :
    List (List ℝ) × List ℝ × List (List ℝ) × List ℝ :=
  ((trainFeat data train_fraction).map
      (normalizeRow (meanVec c data train_fraction) (sigmaVec c data train_fraction)),
   trainLabels data train_fraction,
   (testFeat data train_fraction).map
      (normalizeRow (meanVec c data train_fraction) (sigmaVec c data train_fraction)),
   testLabels data train_fraction)

/-- State-passing embedding of `split_and_preprocess` that makes numpy's
in-place semantics explicit: the buffer holding the `data` argument is
threaded through every statement of the source and returned next to the
result, so a statement mutating the input would be visible in the second
component.  Slicing (`data[:split_point, :-1]` is a view), reductions
(`mean(axis=0)`, `std(axis=0)` allocate fresh arrays) and the broadcast
arithmetic `(train - mean) / sigma` (allocates) only read; the only writes
in the source, `mean[0] = 0.0` and `sigma[0] = 1.0`, target the freshly
allocated `mean`/`sigma` buffers, so the data buffer reaches the end
untouched. -/
noncomputable def split_and_preprocess_mut (c : ℕ) (data : List (List ℝ))
    (train_fraction : ℝ) :
    (List (List ℝ) × List ℝ × List (List ℝ) × List ℝ) × List (List ℝ) :=
  -- split_point = int(data.shape[0] * train_fraction)   (reads the shape)
  let split_point := pyInt ((data.length : ℝ) * train_fraction)
  -- train_labels, test_labels = data[:split_point, -1], data[split_point:, -1]
  let train_labels := (pySliceTo data split_point).map (fun row => pyGet row label_index)
  let test_labels := (pySliceFrom data split_point).map (fun row => pyGet row label_index)
  -- train, test = data[:split_point, :-1], data[split_point:, :-1]   (views)
  let train := (pySliceTo data split_point).map (fun row => pySliceTo row label_index)
  let test := (pySliceFrom data split_point).map (fun row => pySliceTo row label_index)
  -- mean, sigma = train.mean(axis=0), train.std(axis=0)   (fresh buffers)
  let mean0 := npMean (c - 1) train
  let sigma0 := npStd (c - 1) train
  -- mean[0], sigma[0] = 0.0, 1.0   (writes into the mean/sigma buffers only)
  let mean := mean0.set 0 0
  let sigma := sigma0.set 0 1
  -- return statement; the data buffer was never the target of a write
  ((train.map (normalizeRow mean sigma), train_labels,
    test.map (normalizeRow mean sigma), test_labels), data)

open Classical in
/-- Guarded (`Option`-valued) variant of `split_and_preprocess`: every
division performed while normalizing the two feature matrices is checked,
and the error branch `none` is taken as soon as one of them would divide
by zero; otherwise the result is that of the unguarded function. -/
noncomputable def split_and_preprocess_chk (c : ℕ) (data : List (List ℝ))
    (train_fraction : ℝ) :
    Option (List (List ℝ) × List ℝ × List (List ℝ) × List ℝ) :=
  if (∀ row ∈ trainFeat data train_fraction,
        ∀ j < row.length, (sigmaVec c data train_fraction).getD j 0 ≠ 0) ∧
      (∀ row ∈ testFeat data train_fraction,
        ∀ j < row.length, (sigmaVec c data train_fraction).getD j 0 ≠ 0)
  then some (split_and_preprocess c data train_fraction)
  else none

/-- The state of the `TrainingHistory` Keras callback: the members set by
`on_train_begin` and appended to by `on_epoch_end`. -/
structure TrainingHistory where
  loss : List ℝ
  validation_loss : List ℝ

/-- `on_train_begin(self, logs)` from the source: resets both members to
empty lists (the `logs` argument is unused). A Python dict mapping strings
to floats is modelled as an association list queried with `List.lookup`. -/
def on_train_begin (_logs : List (String × ℝ)) : TrainingHistory :=
  { loss := [], validation_loss := [] }

/-- `on_epoch_end(self, _, logs)` from the source: appends `logs['loss']`
to `self.loss` when the key `'loss'` is present, then appends
`logs['val_loss']` to `self.validation_loss` when `'val_loss'` is
present. -/
def on_epoch_end (self : TrainingHistory) (_epoch : ℕ)
    (logs : List (String × ℝ)) : TrainingHistory :=
  let self1 :=
    match logs.lookup "loss" with
    | some v => { self with loss := self.loss ++ [v] }
    | none => self
  match logs.lookup "val_loss" with
  | some v => { self1 with validation_loss := self1.validation_loss ++ [v] }
  | none => self1

/-- Run a whole training: `on_train_begin` followed by one `on_epoch_end`
per epoch, each with its epoch number and logs dict. -/
def runHistory (logs0 : List (String × ℝ))
    (epochs : List (ℕ × List (String × ℝ))) : TrainingHistory :=
  epochs.foldl (fun s p => on_epoch_end s p.1 p.2) (on_train_begin logs0)

/-! ## Basic facts about the Python slicing model -/

theorem pyInt_of_nonneg {x : ℝ} (h : 0 ≤ x) : pyInt x = ⌊x⌋ := if_pos h

theorem splitPoint_eq_floor (data : List (List ℝ)) {f : ℝ} (h0 : 0 ≤ f) :
    splitPoint data f = ⌊(data.length : ℝ) * f⌋ :=
  pyInt_of_nonneg (mul_nonneg (Nat.cast_nonneg _) h0)

theorem splitPoint_nonneg (data : List (List ℝ)) {f : ℝ} (h0 : 0 ≤ f) :
    0 ≤ splitPoint data f := by
  rw [splitPoint_eq_floor data h0]
  exact Int.floor_nonneg.mpr (mul_nonneg (Nat.cast_nonneg _) h0)

theorem length_pySliceTo (l : List α) (k : ℤ) :
    (pySliceTo l k).length = min (pyIdx l.length k) l.length := by
  simp [pySliceTo]

theorem length_pySliceFrom (l : List α) (k : ℤ) :
    (pySliceFrom l k).length = l.length - pyIdx l.length k := by
  simp [pySliceFrom]

theorem pyIdx_of_nonneg {k : ℤ} (len : ℕ) (h : 0 ≤ k) : pyIdx len k = k.toNat :=
  if_pos h

/-- The split point is at most the number of rows when `f ≤ 1`. -/
theorem splitPoint_le (data : List (List ℝ)) {f : ℝ} (h0 : 0 ≤ f) (h1 : f ≤ 1) :
    splitPoint data f ≤ (data.length : ℤ) := by
  rw [splitPoint_eq_floor data h0]
  calc ⌊(data.length : ℝ) * f⌋ ≤ ⌊(data.length : ℝ)⌋ := by
        apply Int.floor_le_floor
        calc (data.length : ℝ) * f ≤ (data.length : ℝ) * 1 :=
              mul_le_mul_of_nonneg_left h1 (Nat.cast_nonneg _)
          _ = (data.length : ℝ) := mul_one _
    _ = (data.length : ℤ) := Int.floor_natCast _

/-! ## C2: partition sizes -/

/-- **C2.** For every input data matrix with `n` rows and every
`train_fraction` `f ∈ [0, 1]`, `split_and_preprocess` assigns
`⌊n * f⌋` rows to the training partition and `n - ⌊n * f⌋` rows to the
test partition, so the sizes sum to `n`. -/
theorem split_and_preprocess_sizes (c : ℕ) (data : List (List ℝ)) (f : ℝ)
    (h0 : 0 ≤ f) (h1 : f ≤ 1) :
    (split_and_preprocess c data f).1.length
        = (⌊(data.length : ℝ) * f⌋).toNat ∧
      (split_and_preprocess c data f).2.2.1.length
        = data.length - (⌊(data.length : ℝ) * f⌋).toNat ∧
      (split_and_preprocess c data f).1.length
          + (split_and_preprocess c data f).2.2.1.length = data.length := by
  have hsp := splitPoint_eq_floor data h0
  have hnn := splitPoint_nonneg data h0
  have hle := splitPoint_le data h0 h1
  have hidx : pyIdx data.length (splitPoint data f)
      = (⌊(data.length : ℝ) * f⌋).toNat := by
    rw [pyIdx_of_nonneg data.length hnn, hsp]
  have htoNat_le : (⌊(data.length : ℝ) * f⌋).toNat ≤ data.length := by
    rw [hsp] at hle
    have := Int.toNat_le_toNat hle
    simpa using this
  have htrain : (split_and_preprocess c data f).1.length
      = (⌊(data.length : ℝ) * f⌋).toNat := by
    simp only [split_and_preprocess, trainFeat, List.length_map,
      length_pySliceTo, hidx]
    exact Nat.min_eq_left htoNat_le
  have htest : (split_and_preprocess c data f).2.2.1.length
      = data.length - (⌊(data.length : ℝ) * f⌋).toNat := by
    simp only [split_and_preprocess, testFeat, List.length_map,
      length_pySliceFrom, hidx]
  refine ⟨htrain, htest, ?_⟩
  rw [htrain, htest]
  exact Nat.add_sub_cancel' htoNat_le

/-- Witness for C2 at `data = [[1], [2]]`, `f = 1/2`. -/
theorem split_and_preprocess_sizes_witness :
    (split_and_preprocess 1 [[(1 : ℝ)], [2]] (1 / 2)).1.length
        = (⌊((([[(1 : ℝ)], [2]] : List (List ℝ)).length : ℝ) * (1 / 2))⌋).toNat ∧
      (split_and_preprocess 1 [[(1 : ℝ)], [2]] (1 / 2)).2.2.1.length
        = ([[(1 : ℝ)], [2]] : List (List ℝ)).length
            - (⌊((([[(1 : ℝ)], [2]] : List (List ℝ)).length : ℝ) * (1 / 2))⌋).toNat ∧
      (split_and_preprocess 1 [[(1 : ℝ)], [2]] (1 / 2)).1.length
          + (split_and_preprocess 1 [[(1 : ℝ)], [2]] (1 / 2)).2.2.1.length
        = ([[(1 : ℝ)], [2]] : List (List ℝ)).length :=
  split_and_preprocess_sizes 1 [[(1 : ℝ)], [2]] (1 / 2) (by norm_num) (by norm_num)

/-! ## C10: feature/label row counts agree -/

/-- **C10.** The training feature matrix has exactly as many rows as the
training label vector has entries, and likewise for the test partition,
for every matrix and fraction (in particular for every `f ∈ [0, 1]`,
including empty partitions). -/
theorem split_and_preprocess_row_counts (c : ℕ) (data : List (List ℝ)) (f : ℝ) :
    (split_and_preprocess c data f).1.length
        = (split_and_preprocess c data f).2.1.length ∧
      (split_and_preprocess c data f).2.2.1.length
        = (split_and_preprocess c data f).2.2.2.length := by
  simp [split_and_preprocess, trainFeat, trainLabels, testFeat, testLabels]

/-! ## C6, C9: the TrainingHistory callback -/

theorem on_epoch_end_loss (self : TrainingHistory) (e : ℕ)
    (logs : List (String × ℝ)) :
    (on_epoch_end self e logs).loss = self.loss ++ (logs.lookup "loss").toList := by
  cases h1 : logs.lookup "loss" <;> cases h2 : logs.lookup "val_loss" <;>
    simp [on_epoch_end, h1, h2]

theorem on_epoch_end_validation_loss (self : TrainingHistory) (e : ℕ)
    (logs : List (String × ℝ)) :
    (on_epoch_end self e logs).validation_loss
      = self.validation_loss ++ (logs.lookup "val_loss").toList := by
  cases h1 : logs.lookup "loss" <;> cases h2 : logs.lookup "val_loss" <;>
    simp [on_epoch_end, h1, h2]

theorem foldl_epoch_end_loss (epochs : List (ℕ × List (String × ℝ))) :
    ∀ self : TrainingHistory,
      (epochs.foldl (fun s p => on_epoch_end s p.1 p.2) self).loss
        = self.loss ++ epochs.filterMap (fun p => p.2.lookup "loss") := by
  induction epochs with
  | nil => intro self; simp
  | cons p rest ih =>
      intro self
      simp only [List.foldl_cons, ih, on_epoch_end_loss, List.filterMap_cons]
      cases p.2.lookup "loss" <;> simp

theorem foldl_epoch_end_validation_loss
    (epochs : List (ℕ × List (String × ℝ))) :
    ∀ self : TrainingHistory,
      (epochs.foldl (fun s p => on_epoch_end s p.1 p.2) self).validation_loss
        = self.validation_loss
            ++ epochs.filterMap (fun p => p.2.lookup "val_loss") := by
  induction epochs with
  | nil => intro self; simp
  | cons p rest ih =>
      intro self
      simp only [List.foldl_cons, ih, on_epoch_end_validation_loss,
        List.filterMap_cons]
      cases p.2.lookup "val_loss" <;> simp

/-- **C6.** After `on_train_begin` and any sequence of `on_epoch_end`
calls, `loss` is exactly the list of `logs['loss']` values of those logs
dicts containing the key `'loss'`, in call order, and `validation_loss`
the analogous list for `'val_loss'`: the tracker is a passive per-epoch
accumulator. -/
theorem runHistory_accumulates (logs0 : List (String × ℝ))
    (epochs : List (ℕ × List (String × ℝ))) :
    (runHistory logs0 epochs).loss
        = epochs.filterMap (fun p => p.2.lookup "loss") ∧
      (runHistory logs0 epochs).validation_loss
        = epochs.filterMap (fun p => p.2.lookup "val_loss") := by
  constructor
  · simp [runHistory, foldl_epoch_end_loss, on_train_begin]
  · simp [runHistory, foldl_epoch_end_validation_loss, on_train_begin]

/-- **C9.** An `on_epoch_end` call whose logs dict lacks `'loss'` leaves
`loss` unchanged, one lacking `'val_loss'` leaves `validation_loss`
unchanged, and when both keys are absent the whole state (which consists
of exactly these two members) is unchanged. -/
theorem on_epoch_end_frame (self : TrainingHistory) (e : ℕ)
    (logs : List (String × ℝ)) :
    (logs.lookup "loss" = none → (on_epoch_end self e logs).loss = self.loss) ∧
      (logs.lookup "val_loss" = none →
        (on_epoch_end self e logs).validation_loss = self.validation_loss) ∧
      (logs.lookup "loss" = none → logs.lookup "val_loss" = none →
        on_epoch_end self e logs = self) := by
  refine ⟨fun h1 => ?_, fun h2 => ?_, fun h1 h2 => ?_⟩
  · rw [on_epoch_end_loss, h1, Option.toList_none, List.append_nil]
  · rw [on_epoch_end_validation_loss, h2, Option.toList_none, List.append_nil]
  · simp [on_epoch_end, h1, h2]

/-- Witness for C9 at a logs dict containing neither tracked key. -/
theorem on_epoch_end_frame_witness :
    (on_epoch_end ⟨[1], [2]⟩ 0 [("accuracy", 3)]).loss = [1] ∧
      (on_epoch_end ⟨[1], [2]⟩ 0 [("accuracy", 3)]).validation_loss = [2] :=
  ⟨(on_epoch_end_frame ⟨[1], [2]⟩ 0 [("accuracy", 3)]).1 rfl,
   (on_epoch_end_frame ⟨[1], [2]⟩ 0 [("accuracy", 3)]).2.1 rfl⟩

/-! ## C7: the input array is never mutated -/

/-- **C7.** `split_and_preprocess` never modifies its input: in the
state-passing embedding the data buffer coming out of the call is the one
that went in, and the computed results agree with the pure embedding. -/
theorem split_and_preprocess_mut_preserves_input (c : ℕ)
    (data : List (List ℝ)) (f : ℝ) :
    (split_and_preprocess_mut c data f).2 = data ∧
      (split_and_preprocess_mut c data f).1 = split_and_preprocess c data f := by
  constructor
  · rfl
  · rfl

/-! ## C4: normalization statistics depend only on the training partition -/

theorem splitPoint_congr {d1 d2 : List (List ℝ)} (f : ℝ)
    (hlen : d1.length = d2.length) : splitPoint d1 f = splitPoint d2 f := by
  rw [splitPoint, splitPoint, hlen]

theorem pySliceTo_congr_of_prefix_agree {d1 d2 : List (List ℝ)} {k : ℕ}
    (hlen : d1.length = d2.length)
    (hagree : ∀ i : ℕ, i < k → d1.getD i [] = d2.getD i []) :
    d1.take k = d2.take k := by
  apply List.ext_getElem?
  intro i
  rw [List.getElem?_take, List.getElem?_take]
  by_cases hik : i < k
  · rw [if_pos hik, if_pos hik]
    by_cases hin : i < d1.length
    · have hin2 : i < d2.length := hlen ▸ hin
      rw [List.getElem?_eq_getElem hin, List.getElem?_eq_getElem hin2]
      have h := hagree i hik
      rw [List.getD_eq_getElem?_getD, List.getD_eq_getElem?_getD,
        List.getElem?_eq_getElem hin, List.getElem?_eq_getElem hin2] at h
      simpa using h
    · rw [List.getElem?_eq_none (Nat.le_of_not_lt hin),
        List.getElem?_eq_none (Nat.le_of_not_lt (hlen ▸ hin))]
  · rw [if_neg hik, if_neg hik]

/-- **C4.** Two input matrices of equal shape that agree on all rows
before the split point produce identical per-feature means and standard
deviations and identical normalized training data and training labels:
the normalization statistics are derived from the training partition
only, never from the test partition. -/
theorem split_and_preprocess_no_test_leakage (c : ℕ)
    (d1 d2 : List (List ℝ)) (f : ℝ) (hlen : d1.length = d2.length)
    (hagree : ∀ i : ℕ, i < pyIdx d1.length (splitPoint d1 f) →
      d1.getD i [] = d2.getD i []) :
    meanVec c d1 f = meanVec c d2 f ∧
      sigmaVec c d1 f = sigmaVec c d2 f ∧
      (split_and_preprocess c d1 f).1 = (split_and_preprocess c d2 f).1 ∧
      (split_and_preprocess c d1 f).2.1 = (split_and_preprocess c d2 f).2.1 := by
  have hsp : splitPoint d1 f = splitPoint d2 f := splitPoint_congr f hlen
  have hidx : pyIdx d1.length (splitPoint d1 f)
      = pyIdx d2.length (splitPoint d2 f) := by rw [hlen, hsp]
  have hslice : pySliceTo d1 (splitPoint d1 f) = pySliceTo d2 (splitPoint d2 f) := by
    rw [pySliceTo, pySliceTo, ← hidx]
    exact pySliceTo_congr_of_prefix_agree hlen hagree
  have htf : trainFeat d1 f = trainFeat d2 f := by
    rw [trainFeat, trainFeat, hslice]
  have htl : trainLabels d1 f = trainLabels d2 f := by
    rw [trainLabels, trainLabels, hslice]
  have hm : meanVec c d1 f = meanVec c d2 f := by
    rw [meanVec, meanVec, htf]
  have hs : sigmaVec c d1 f = sigmaVec c d2 f := by
    rw [sigmaVec, sigmaVec, htf]
  refine ⟨hm, hs, ?_, ?_⟩
  · show (trainFeat d1 f).map (normalizeRow (meanVec c d1 f) (sigmaVec c d1 f))
        = (trainFeat d2 f).map (normalizeRow (meanVec c d2 f) (sigmaVec c d2 f))
    rw [htf, hm, hs]
  · show trainLabels d1 f = trainLabels d2 f
    exact htl

/-- Witness for C4: two matrices differing only in the test partition. -/
theorem split_and_preprocess_no_test_leakage_witness :
    meanVec 2 [[(1 : ℝ), 2], [3, 4]] (1 / 2) = meanVec 2 [[(1 : ℝ), 2], [5, 9]] (1 / 2) ∧
      sigmaVec 2 [[(1 : ℝ), 2], [3, 4]] (1 / 2)
        = sigmaVec 2 [[(1 : ℝ), 2], [5, 9]] (1 / 2) ∧
      (split_and_preprocess 2 [[(1 : ℝ), 2], [3, 4]] (1 / 2)).1
        = (split_and_preprocess 2 [[(1 : ℝ), 2], [5, 9]] (1 / 2)).1 ∧
      (split_and_preprocess 2 [[(1 : ℝ), 2], [3, 4]] (1 / 2)).2.1
        = (split_and_preprocess 2 [[(1 : ℝ), 2], [5, 9]] (1 / 2)).2.1 :=
  split_and_preprocess_no_test_leakage 2 _ _ (1 / 2) rfl (by
    intro i hi
    have hsp : splitPoint [[(1 : ℝ), 2], [3, 4]] (1 / 2) = 1 := by
      rw [splitPoint, pyInt, if_pos (by norm_num)]
      norm_num
    rw [hsp, pyIdx_of_nonneg _ (by norm_num)] at hi
    have hi0 : i = 0 := by omega
    subst hi0
    rfl)

/-! ## Index lemmas for the matrix embedding -/

theorem getD_range_map (g : ℕ → ℝ) {c j : ℕ} (hj : j < c) :
    ((List.range c).map g).getD j 0 = g j := by
  rw [List.getD_eq_getElem?_getD, List.getElem?_map, List.getElem?_range hj]
  rfl

theorem pyIdx_label (len : ℕ) : pyIdx len label_index = len - 1 := by
  rw [pyIdx, label_index, if_neg (by norm_num)]
  rfl

theorem pySliceTo_label_eq_dropLast (row : List ℝ) :
    pySliceTo row label_index = row.dropLast := by
  rw [pySliceTo, pyIdx_label, List.dropLast_eq_take]

theorem pyGet_label (row : List ℝ) : pyGet row label_index = row.getLastD 0 := by
  rw [pyGet, pyIdx_label, List.getD_eq_getElem?_getD, List.getLastD_eq_getLast?,
    List.getLast?_eq_getElem?]

theorem getD_pySliceTo_label (row : List ℝ) {j : ℕ} (hj : j < row.length - 1) :
    (pySliceTo row label_index).getD j 0 = row.getD j 0 := by
  rw [pySliceTo, pyIdx_label, List.getD_eq_getElem?_getD,
    List.getD_eq_getElem?_getD, List.getElem?_take, if_pos hj]

theorem length_npMean (c : ℕ) (m : List (List ℝ)) : (npMean c m).length = c := by
  simp [npMean]

theorem length_npStd (c : ℕ) (m : List (List ℝ)) : (npStd c m).length = c := by
  simp [npStd]

theorem meanVec_getD_zero (c : ℕ) (data : List (List ℝ)) (f : ℝ) (hc : 2 ≤ c) :
    (meanVec c data f).getD 0 0 = 0 := by
  rw [meanVec, List.getD_eq_getElem?_getD,
    List.getElem?_set_eq_of_lt _ (by rw [length_npMean]; omega)]
  rfl

theorem sigmaVec_getD_zero (c : ℕ) (data : List (List ℝ)) (f : ℝ) (hc : 2 ≤ c) :
    (sigmaVec c data f).getD 0 0 = 1 := by
  rw [sigmaVec, List.getD_eq_getElem?_getD,
    List.getElem?_set_eq_of_lt _ (by rw [length_npStd]; omega)]
  rfl

theorem meanVec_getD (c : ℕ) (data : List (List ℝ)) (f : ℝ) {j : ℕ}
    (hj1 : 1 ≤ j) (hj : j < c - 1) :
    (meanVec c data f).getD j 0 = listMean (colOf (trainFeat data f) j) := by
  rw [meanVec, List.getD_eq_getElem?_getD,
    List.getElem?_set_ne (show (0 : ℕ) ≠ j by omega), npMean,
    List.getElem?_map, List.getElem?_range hj]
  rfl

theorem sigmaVec_getD (c : ℕ) (data : List (List ℝ)) (f : ℝ) {j : ℕ}
    (hj1 : 1 ≤ j) (hj : j < c - 1) :
    (sigmaVec c data f).getD j 0 = listStd (colOf (trainFeat data f) j) := by
  rw [sigmaVec, List.getD_eq_getElem?_getD,
    List.getElem?_set_ne (show (0 : ℕ) ≠ j by omega), npStd,
    List.getElem?_map, List.getElem?_range hj]
  rfl

theorem normalizeRow_getD (mean sigma row : List ℝ) {j : ℕ}
    (hj : j < row.length) :
    (normalizeRow mean sigma row).getD j 0
      = (row.getD j 0 - mean.getD j 0) / sigma.getD j 0 :=
  getD_range_map _ hj

theorem trainFeat_row_length {c : ℕ} {data : List (List ℝ)} (f : ℝ)
    (hc : ∀ row ∈ data, row.length = c) :
    ∀ r ∈ trainFeat data f, r.length = c - 1 := by
  intro r hr
  rw [trainFeat] at hr
  obtain ⟨row, hrow, rfl⟩ := List.mem_map.mp hr
  have hmem : row ∈ data := List.take_subset _ _ hrow
  rw [pySliceTo, pyIdx_label, List.length_take, hc row hmem]
  omega

theorem testFeat_row_length {c : ℕ} {data : List (List ℝ)} (f : ℝ)
    (hc : ∀ row ∈ data, row.length = c) :
    ∀ r ∈ testFeat data f, r.length = c - 1 := by
  intro r hr
  rw [testFeat] at hr
  obtain ⟨row, hrow, rfl⟩ := List.mem_map.mp hr
  have hmem : row ∈ data := List.drop_subset _ _ hrow
  rw [pySliceTo, pyIdx_label, List.length_take, hc row hmem]
  omega

/-! ## C3: the categorical column passes through unmodified -/

theorem normalizeRow_feat_getD_zero {c : ℕ} (data : List (List ℝ)) (f : ℝ)
    (hc2 : 2 ≤ c) {row : List ℝ} (hrow : row.length = c) :
    (normalizeRow (meanVec c data f) (sigmaVec c data f)
        (pySliceTo row label_index)).getD 0 0 = row.getD 0 0 := by
  have hlen : (pySliceTo row label_index).length = c - 1 := by
    rw [pySliceTo, pyIdx_label, List.length_take, hrow]
    omega
  rw [normalizeRow_getD _ _ _ (by omega : 0 < (pySliceTo row label_index).length),
    meanVec_getD_zero c data f hc2, sigmaVec_getD_zero c data f hc2,
    getD_pySliceTo_label row (by omega : 0 < row.length - 1), sub_zero, div_one]

/-- **C3.** Column 0 (the categorical sex column) of both returned feature
matrices equals column 0 of the corresponding rows of the input,
unmodified, because mean 0 and scale 1 are applied to it. -/
theorem split_and_preprocess_categorical_unmodified (c : ℕ)
    (data : List (List ℝ)) (f : ℝ) (hc : ∀ row ∈ data, row.length = c)
    (hc2 : 2 ≤ c) :
    colOf (split_and_preprocess c data f).1 0
        = colOf (pySliceTo data (splitPoint data f)) 0 ∧
      colOf (split_and_preprocess c data f).2.2.1 0
        = colOf (pySliceFrom data (splitPoint data f)) 0 := by
  constructor
  · show colOf ((trainFeat data f).map
        (normalizeRow (meanVec c data f) (sigmaVec c data f))) 0 = _
    rw [colOf, colOf, trainFeat, List.map_map, List.map_map]
    apply List.map_congr_left
    intro row hrow
    exact normalizeRow_feat_getD_zero data f hc2
      (hc row (List.take_subset _ _ hrow))
  · show colOf ((testFeat data f).map
        (normalizeRow (meanVec c data f) (sigmaVec c data f))) 0 = _
    rw [colOf, colOf, testFeat, List.map_map, List.map_map]
    apply List.map_congr_left
    intro row hrow
    exact normalizeRow_feat_getD_zero data f hc2
      (hc row (List.drop_subset _ _ hrow))

/-- Witness for C3 at a concrete 2-row, 3-column matrix. -/
theorem split_and_preprocess_categorical_unmodified_witness :
    colOf (split_and_preprocess 3 [[(1 : ℝ), 2, 3], [0, 5, 6]] (1 / 2)).1 0
        = colOf (pySliceTo [[(1 : ℝ), 2, 3], [0, 5, 6]]
            (splitPoint [[(1 : ℝ), 2, 3], [0, 5, 6]] (1 / 2))) 0 ∧
      colOf (split_and_preprocess 3 [[(1 : ℝ), 2, 3], [0, 5, 6]] (1 / 2)).2.2.1 0
        = colOf (pySliceFrom [[(1 : ℝ), 2, 3], [0, 5, 6]]
            (splitPoint [[(1 : ℝ), 2, 3], [0, 5, 6]] (1 / 2))) 0 :=
  split_and_preprocess_categorical_unmodified 3 _ (1 / 2)
    (by
      intro row hrow
      simp only [List.mem_cons, List.not_mem_nil, or_false] at hrow
      rcases hrow with rfl | rfl
      · rfl
      · rfl)
    (by norm_num)

/-! ## C5: contiguous split, last column as labels, rest as features -/

/-- **C5.** The split is a contiguous prefix/suffix in original row order
with no shuffling: the training labels are the last column of the first
`split_point` rows, the test labels the last column of the remaining rows,
and the returned feature matrices consist of exactly all columns except
the last one, normalized. -/
theorem split_and_preprocess_split_structure (c : ℕ) (data : List (List ℝ))
    (f : ℝ) (h0 : 0 ≤ f) :
    (split_and_preprocess c data f).2.1
        = (data.take (splitPoint data f).toNat).map (fun r => r.getLastD 0) ∧
      (split_and_preprocess c data f).2.2.2
        = (data.drop (splitPoint data f).toNat).map (fun r => r.getLastD 0) ∧
      (split_and_preprocess c data f).1
        = (data.take (splitPoint data f).toNat).map
            (fun r => normalizeRow (meanVec c data f) (sigmaVec c data f)
              r.dropLast) ∧
      (split_and_preprocess c data f).2.2.1
        = (data.drop (splitPoint data f).toNat).map
            (fun r => normalizeRow (meanVec c data f) (sigmaVec c data f)
              r.dropLast) := by
  have hnn := splitPoint_nonneg data h0
  have hto : pySliceTo data (splitPoint data f)
      = data.take (splitPoint data f).toNat := by
    rw [pySliceTo, pyIdx_of_nonneg _ hnn]
  have hfrom : pySliceFrom data (splitPoint data f)
      = data.drop (splitPoint data f).toNat := by
    rw [pySliceFrom, pyIdx_of_nonneg _ hnn]
  refine ⟨?_, ?_, ?_, ?_⟩
  · show trainLabels data f = _
    rw [trainLabels, hto]
    exact List.map_congr_left (fun row _ => pyGet_label row)
  · show testLabels data f = _
    rw [testLabels, hfrom]
    exact List.map_congr_left (fun row _ => pyGet_label row)
  · show (trainFeat data f).map
        (normalizeRow (meanVec c data f) (sigmaVec c data f)) = _
    rw [trainFeat, hto, List.map_map]
    exact List.map_congr_left (fun row _ => by
      simp only [Function.comp_apply, pySliceTo_label_eq_dropLast])
  · show (testFeat data f).map
        (normalizeRow (meanVec c data f) (sigmaVec c data f)) = _
    rw [testFeat, hfrom, List.map_map]
    exact List.map_congr_left (fun row _ => by
      simp only [Function.comp_apply, pySliceTo_label_eq_dropLast])

/-- Witness for C5 at `data = [[1, 2], [3, 4]]`, `f = 3/4`. -/
theorem split_and_preprocess_split_structure_witness :
    (split_and_preprocess 2 [[(1 : ℝ), 2], [3, 4]] (3 / 4)).2.1
        = (([[(1 : ℝ), 2], [3, 4]] : List (List ℝ)).take
            (splitPoint [[(1 : ℝ), 2], [3, 4]] (3 / 4)).toNat).map
            (fun r => r.getLastD 0) ∧
      (split_and_preprocess 2 [[(1 : ℝ), 2], [3, 4]] (3 / 4)).2.2.2
        = (([[(1 : ℝ), 2], [3, 4]] : List (List ℝ)).drop
            (splitPoint [[(1 : ℝ), 2], [3, 4]] (3 / 4)).toNat).map
            (fun r => r.getLastD 0) ∧
      (split_and_preprocess 2 [[(1 : ℝ), 2], [3, 4]] (3 / 4)).1
        = (([[(1 : ℝ), 2], [3, 4]] : List (List ℝ)).take
            (splitPoint [[(1 : ℝ), 2], [3, 4]] (3 / 4)).toNat).map
            (fun r => normalizeRow (meanVec 2 [[(1 : ℝ), 2], [3, 4]] (3 / 4))
              (sigmaVec 2 [[(1 : ℝ), 2], [3, 4]] (3 / 4)) r.dropLast) ∧
      (split_and_preprocess 2 [[(1 : ℝ), 2], [3, 4]] (3 / 4)).2.2.1
        = (([[(1 : ℝ), 2], [3, 4]] : List (List ℝ)).drop
            (splitPoint [[(1 : ℝ), 2], [3, 4]] (3 / 4)).toNat).map
            (fun r => normalizeRow (meanVec 2 [[(1 : ℝ), 2], [3, 4]] (3 / 4))
              (sigmaVec 2 [[(1 : ℝ), 2], [3, 4]] (3 / 4)) r.dropLast) :=
  split_and_preprocess_split_structure 2 [[(1 : ℝ), 2], [3, 4]] (3 / 4)
    (by norm_num)

/-! ## Statistics of normalized columns -/

theorem list_sum_map_sub (l : List ℝ) (μ : ℝ) :
    (l.map (fun x => x - μ)).sum = l.sum - l.length * μ := by
  induction l with
  | nil => simp
  | cons a t ih =>
      simp only [List.map_cons, List.sum_cons, ih, List.length_cons]
      push_cast
      ring

theorem list_sum_map_div (l : List ℝ) (g : ℝ → ℝ) (σ : ℝ) :
    (l.map (fun x => g x / σ)).sum = (l.map g).sum / σ := by
  induction l with
  | nil => simp
  | cons a t ih => simp [ih, add_div]

theorem listMean_center (l : List ℝ) (hl : l ≠ []) (σ : ℝ) :
    listMean (l.map (fun x => (x - listMean l) / σ)) = 0 := by
  have hn : (l.length : ℝ) ≠ 0 :=
    Nat.cast_ne_zero.mpr (fun h => hl (List.length_eq_zero.mp h))
  rw [listMean, List.length_map, list_sum_map_div, list_sum_map_sub]
  have hz : l.sum - l.length * listMean l = 0 := by
    rw [listMean]
    field_simp
  rw [hz, zero_div, zero_div]

theorem listVar_center_scale (l : List ℝ) (hl : l ≠ []) (σ : ℝ) :
    listVar (l.map (fun x => (x - listMean l) / σ)) = listVar l / σ ^ 2 := by
  rw [listVar, listMean_center l hl σ, List.length_map, List.map_map]
  have hfun : ((fun x => (x - 0) ^ 2) ∘ fun x => (x - listMean l) / σ)
      = fun x => (x - listMean l) ^ 2 / σ ^ 2 := by
    funext x
    rw [Function.comp_apply, sub_zero, div_pow]
  rw [hfun, list_sum_map_div l (fun x => (x - listMean l) ^ 2) (σ ^ 2),
    listVar, div_right_comm]

theorem listVar_nonneg (l : List ℝ) : 0 ≤ listVar l := by
  apply div_nonneg _ (Nat.cast_nonneg _)
  apply List.sum_nonneg
  intro x hx
  obtain ⟨y, _, rfl⟩ := List.mem_map.mp hx
  exact sq_nonneg _

theorem listStd_sq (l : List ℝ) : listStd l ^ 2 = listVar l :=
  Real.sq_sqrt (listVar_nonneg l)

theorem listVar_ne_zero_of_listStd {l : List ℝ} (h : listStd l ≠ 0) :
    listVar l ≠ 0 := by
  intro hv
  exact h (by rw [listStd, hv, Real.sqrt_zero])

theorem ne_nil_of_listStd {l : List ℝ} (h : listStd l ≠ 0) : l ≠ [] := by
  intro hl
  apply h
  rw [hl]
  simp [listStd, listVar, listMean]

/-- Exact normalization: dividing the deviations from the mean by a
nonzero standard deviation yields a list of mean 0 and standard
deviation 1. -/
theorem normalized_mean_std (l : List ℝ) (h : listStd l ≠ 0) :
    listMean (l.map (fun x => (x - listMean l) / listStd l)) = 0 ∧
      listStd (l.map (fun x => (x - listMean l) / listStd l)) = 1 := by
  have hl := ne_nil_of_listStd h
  refine ⟨listMean_center l hl _, ?_⟩
  rw [listStd, listVar_center_scale l hl _, listStd_sq,
    div_self (listVar_ne_zero_of_listStd h), Real.sqrt_one]

/-! ## C1: normalized training features have mean 0 and std 1 -/

theorem colOf_normalized_train (c : ℕ) (data : List (List ℝ)) (f : ℝ)
    {j : ℕ} (hc : ∀ row ∈ data, row.length = c) (hj1 : 1 ≤ j)
    (hjc : j + 1 < c) :
    colOf (split_and_preprocess c data f).1 j
      = (colOf (trainFeat data f) j).map
          (fun x => (x - listMean (colOf (trainFeat data f) j))
            / listStd (colOf (trainFeat data f) j)) := by
  show colOf ((trainFeat data f).map
      (normalizeRow (meanVec c data f) (sigmaVec c data f))) j = _
  rw [colOf, colOf, List.map_map, List.map_map]
  apply List.map_congr_left
  intro r hr
  have hrlen : r.length = c - 1 := trainFeat_row_length f hc r hr
  rw [Function.comp_apply, Function.comp_apply,
    normalizeRow_getD _ _ _ (by omega : j < r.length),
    meanVec_getD c data f hj1 (by omega), sigmaVec_getD c data f hj1 (by omega)]
  simp only [colOf]

/-- **C1.** For every input matrix and every feature column `j ≥ 1` whose
training-partition standard deviation is nonzero, column `j` of the
normalized training matrix returned by `split_and_preprocess` has mean
exactly 0 and standard deviation exactly 1, in exact real arithmetic. -/
theorem split_and_preprocess_normalizes (c : ℕ) (data : List (List ℝ))
    (f : ℝ) (j : ℕ) (hc : ∀ row ∈ data, row.length = c) (hj1 : 1 ≤ j)
    (hjc : j + 1 < c)
    (hσ : listStd (colOf (trainFeat data f) j) ≠ 0) :
    listMean (colOf (split_and_preprocess c data f).1 j) = 0 ∧
      listStd (colOf (split_and_preprocess c data f).1 j) = 1 := by
  rw [colOf_normalized_train c data f hc hj1 hjc]
  exact normalized_mean_std _ hσ

/-! ## Concrete evaluations shared by witnesses and counterexamples -/

theorem splitPoint_pair_one : splitPoint [[(0 : ℝ), 0, 1], [0, 2, 2]] 1 = 2 := by
  rw [splitPoint, pyInt, if_pos (by norm_num)]
  norm_num

theorem trainFeat_pair_one :
    trainFeat [[(0 : ℝ), 0, 1], [0, 2, 2]] 1 = [[0, 0], [0, 2]] := by
  rw [trainFeat, splitPoint_pair_one]
  rfl

theorem listStd_zero_two : listStd [(0 : ℝ), 2] = 1 := by
  have hv : listVar [(0 : ℝ), 2] = 1 := by
    rw [listVar, listMean]
    norm_num
  rw [listStd, hv, Real.sqrt_one]

theorem listStd_col_pair_one :
    listStd (colOf (trainFeat [[(0 : ℝ), 0, 1], [0, 2, 2]] 1) 1) = 1 := by
  rw [trainFeat_pair_one,
    show colOf [[(0 : ℝ), 0], [0, 2]] 1 = [0, 2] from rfl, listStd_zero_two]

/-- Witness for C1 at `data = [[0,0,1],[0,2,2]]`, `f = 1`, column `j = 1`
(training column `[0, 2]`, mean 1, standard deviation 1). -/
theorem split_and_preprocess_normalizes_witness :
    listMean (colOf (split_and_preprocess 3 [[(0 : ℝ), 0, 1], [0, 2, 2]] 1).1 1)
        = 0 ∧
      listStd (colOf (split_and_preprocess 3 [[(0 : ℝ), 0, 1], [0, 2, 2]] 1).1 1)
        = 1 :=
  split_and_preprocess_normalizes 3 [[(0 : ℝ), 0, 1], [0, 2, 2]] 1 1
    (by
      intro row hrow
      simp only [List.mem_cons, List.not_mem_nil, or_false] at hrow
      rcases hrow with rfl | rfl
      · rfl
      · rfl)
    (by norm_num) (by norm_num)
    (by rw [listStd_col_pair_one]; exact one_ne_zero)

/-! ## C8: the division-error branch of the guarded embedding -/

theorem splitPoint_const_col : splitPoint [[(0 : ℝ), 5, 1], [0, 5, 2]] (3 / 4) = 1 := by
  rw [splitPoint, pyInt, if_pos (by norm_num)]
  refine Int.floor_eq_iff.mpr ⟨by push_cast; norm_num, by push_cast; norm_num⟩

theorem trainFeat_const_col :
    trainFeat [[(0 : ℝ), 5, 1], [0, 5, 2]] (3 / 4) = [[0, 5]] := by
  rw [trainFeat, splitPoint_const_col]
  rfl

theorem listStd_single_five : listStd [(5 : ℝ)] = 0 := by
  have hv : listVar [(5 : ℝ)] = 0 := by
    rw [listVar, listMean]
    norm_num
  rw [listStd, hv, Real.sqrt_zero]

/-- Counterexample to C8 as stated: the well-shaped matrix
`[[0,5,1],[0,5,2]]` (two rows, three columns, two feature columns) has a
constant training-partition feature column, so the guarded embedding hits
a division by zero (`sigma[1] = 0`) and takes the error branch, even
though the shape is not malformed. -/
theorem split_and_preprocess_chk_div_error :
    (∀ row ∈ ([[(0 : ℝ), 5, 1], [0, 5, 2]] : List (List ℝ)), row.length = 3) ∧
      split_and_preprocess_chk 3 [[(0 : ℝ), 5, 1], [0, 5, 2]] (3 / 4) = none := by
  constructor
  · intro row hrow
    simp only [List.mem_cons, List.not_mem_nil, or_false] at hrow
    rcases hrow with rfl | rfl
    · rfl
    · rfl
  · rw [split_and_preprocess_chk, if_neg]
    rintro ⟨h1, -⟩
    have hmem : [(0 : ℝ), 5] ∈ trainFeat [[(0 : ℝ), 5, 1], [0, 5, 2]] (3 / 4) := by
      rw [trainFeat_const_col]
      exact List.mem_singleton.mpr rfl
    apply h1 [(0 : ℝ), 5] hmem 1 (by norm_num)
    rw [sigmaVec_getD 3 _ (3 / 4) (le_refl 1) (by norm_num), trainFeat_const_col,
      show colOf [[(0 : ℝ), 5]] 1 = [5] from rfl, listStd_single_five]

/-- **C8 (amended).** For every well-shaped input matrix all of whose
training-partition feature columns `j ≥ 1` have nonzero standard
deviation, the guarded embedding of `split_and_preprocess` completes
without error: under that extra hypothesis the division-error branch is
unreachable. -/
theorem split_and_preprocess_chk_completes (c : ℕ) (data : List (List ℝ))
    (f : ℝ) (hc : ∀ row ∈ data, row.length = c) (hc2 : 2 ≤ c)
    (hσ : ∀ j : ℕ, 1 ≤ j → j + 1 < c →
      listStd (colOf (trainFeat data f) j) ≠ 0) :
    (split_and_preprocess_chk c data f).isSome = true := by
  rw [split_and_preprocess_chk, if_pos]
  · rfl
  · constructor
    · intro row hrow j hj
      have hrl : row.length = c - 1 := trainFeat_row_length f hc row hrow
      rcases Nat.eq_zero_or_pos j with rfl | hj1
      · rw [sigmaVec_getD_zero c data f hc2]
        exact one_ne_zero
      · rw [sigmaVec_getD c data f hj1 (by omega)]
        exact hσ j hj1 (by omega)
    · intro row hrow j hj
      have hrl : row.length = c - 1 := testFeat_row_length f hc row hrow
      rcases Nat.eq_zero_or_pos j with rfl | hj1
      · rw [sigmaVec_getD_zero c data f hc2]
        exact one_ne_zero
      · rw [sigmaVec_getD c data f hj1 (by omega)]
        exact hσ j hj1 (by omega)

/-- Witness for the amended C8: with the non-constant training column
`[0, 2]` the guarded embedding succeeds. -/
theorem split_and_preprocess_chk_completes_witness :
    (split_and_preprocess_chk 3 [[(0 : ℝ), 0, 1], [0, 2, 2]] 1).isSome = true :=
  split_and_preprocess_chk_completes 3 [[(0 : ℝ), 0, 1], [0, 2, 2]] 1
    (by
      intro row hrow
      simp only [List.mem_cons, List.not_mem_nil, or_false] at hrow
      rcases hrow with rfl | rfl
      · rfl
      · rfl)
    (by norm_num)
    (by
      intro j hj1 hjc
      have hj : j = 1 := by omega
      subst hj
      rw [listStd_col_pair_one]
      exact one_ne_zero)

end Gridka
